import Mathlib

/-!
Verification of the `HashRelation` build-side hash-join index from
`src/oap-native-sql/cpp/src/codegen/common/hash_relation.h`.

The file embeds the data model and operations of `HashRelation` and its
column companions.  The underlying raw-memory hash map
(`third_party/row_wise_memory/hashMap.h`), the `ArrayItemIndex` struct and the
precompile array wrappers are not part of the given sources; where their
behaviour is load-bearing it is modelled from the specification (spec sections
4.2 and 4.4) and each such definition is marked `Modelled from the spec`.
-/

set_option maxHeartbeats 1000000

namespace OapHashRelation

/-- An encoded join key, one of the three key kinds the probe/build overloads
accept: fixed-width numeric scalar, variable-length byte string, or a
composite binary row (`UnsafeRow` payload bytes).  Keys are compared by exact
equality of the encoding (spec section 3, "Key"). -/
inductive Key where
  | num (v : Int)
  | str (s : List Nat)
  | row (bytes : List Nat)
deriving DecidableEq, Repr

/-- Row Locator.  Modelled from the spec (the defining header
`codegen/arrow_compute/ext/array_item_index.h` is not under src/): an
immutable pair (batch id, row offset). -/
structure ArrayItemIndex where
  array_id : Nat
  id : Nat
deriving DecidableEq, Repr

/-- The subset of `arrow::Status` values produced by this file's code. -/
inductive Status where
  | OK
  | NotImplemented (msg : String)
  | CapacityError (msg : String)
  | Invalid (msg : String)
deriving DecidableEq, Repr

/-- Modelled from the spec: the "new key" sentinel `HASH_NEW_KEY` defined in
`hashMap.h` (absent from src/); the distinguished not-found / no-null marker,
distinct from 0. -/
def HASH_NEW_KEY : Int := -1

/-- Modelled from the spec (section 4.4): the raw-memory growable multimap
`unsafeHashMap` from `hashMap.h` (absent from src/).  `entries` is the logical
content: an association list from (hash value, encoded key) to the bucket of
payload records (Row Locators) in insertion order; a lookup matches on the
stored hash and on full key equality.  `cursor`/`maxBytes` model the
append-only bytes region and its capacity bound; `arrayCapacity`,
`bytesInKeyArray`, `keyArray`, `bytesMap` and `selfAddr` model the fields the
source reads for the raw-buffer handoff. -/
structure UnsafeHashMap where
  entries : List ((Int × Key) × List ArrayItemIndex)
  cursor : Nat
  maxBytes : Nat
  arrayCapacity : Nat
  bytesInKeyArray : Nat
  keyWidthHint : Int
  selfAddr : Int
  keyArray : Int
  bytesMap : Int
deriving DecidableEq, Repr

/-- Modelled from the spec: encoded byte length of a key (numeric keys use a
fixed-width native pattern, strings and composite rows their byte buffers). -/
def keyEncodedLen : Key → Nat
  | .num _ => 8
  | .str s => s.length
  | .row bytes => bytes.length

/-- Modelled from the spec: size of one chained payload record
(one Row Locator) in the bytes region. -/
def payloadRecordLen : Nat := 8

/-- First bucket stored under the given (hash, key) pair, if any. -/
def lookupBucket : List ((Int × Key) × List ArrayItemIndex) → Int × Key →
    Option (List ArrayItemIndex)
  | [], _ => none
  | e :: rest, hk => if e.1 = hk then some e.2 else lookupBucket rest hk

/-- Append one payload record under the given (hash, key) pair: chained onto
the first existing record list for that pair, or as a fresh entry at the end
(multimap semantics, never overwriting). -/
def addToBucket : List ((Int × Key) × List ArrayItemIndex) → Int × Key →
    ArrayItemIndex → List ((Int × Key) × List ArrayItemIndex)
  | [], hk, loc => [(hk, [loc])]
  | e :: rest, hk, loc =>
      if e.1 = hk then (e.1, e.2 ++ [loc]) :: rest
      else e :: addToBucket rest hk loc

/-- Bytes consumed in the bytes region by one insert: a payload record, plus a
new key record when the key is not yet present. -/
def insertCost (m : UnsafeHashMap) (hk : Int × Key) : Nat :=
  match lookupBucket m.entries hk with
  | some _ => payloadRecordLen
  | none => keyEncodedLen hk.2 + payloadRecordLen

/-- Modelled from the spec (section 4.4, `Insert`): `append` from `hashMap.h`.
Inserts one (key, hash, Row Locator) record; fails (returns `none`, the model
of `append` returning false) when the bytes region is exhausted up to
`maxBytes`. -/
def hashMapAppend (m : UnsafeHashMap) (k : Key) (h : Int) (loc : ArrayItemIndex) :
    Option UnsafeHashMap :=
  if m.cursor + insertCost m (h, k) ≤ m.maxBytes then
    some { m with entries := addToBucket m.entries (h, k) loc,
                  cursor := m.cursor + insertCost m (h, k) }
  else none

/-- Modelled from the spec (section 4.4, `Create`): `createUnsafeHashMap`.
Stores the requested key-slot capacity, bytes-region bound and key width
hint; the slot stride and region addresses are allocation details modelled by
fixed values. -/
def createUnsafeHashMap (initArrayCapacity maxBytes : Nat) (keySize : Int) :
    UnsafeHashMap :=
  { entries := [], cursor := 0, maxBytes := maxBytes,
    arrayCapacity := initArrayCapacity, bytesInKeyArray := 8,
    keyWidthHint := keySize, selfAddr := 0, keyArray := 0, bytesMap := 0 }

/-- Modelled from the spec: `sizeof(unsafeHashMap)`, the byte size of the map
header struct, a fixed constant of the (absent) `hashMap.h`. -/
def sizeofUnsafeHashMap : Nat := 48

/-- State of a `HashRelation` (hash_relation.h lines 294-302).  `attached`
embeds the source's attached-mode flag set by `UnsafeSetHashTableObject`;
payload columns are held as opaque handles since no verified operation
inspects them. -/
structure HashRelation where
  attached : Bool
  num_arrays_ : Nat
  hash_relation_column_list_ : List Nat
  hash_table_ : Option UnsafeHashMap
  null_index_set_ : Bool
  null_index_list_ : List ArrayItemIndex
  arrayid_list_ : List ArrayItemIndex
deriving DecidableEq, Repr

/-- The three-argument constructor (hash_relation.h lines 121-128): creates
the underlying map with fixed capacity `1024 * 1024`, fixed bytes bound
`256 * 1024 * 1024`, and the caller's `key_size` hint. -/
def HashRelation.make (_ctx : Nat) (cols : List Nat) (key_size : Int) : HashRelation :=
  { attached := false, num_arrays_ := 0, hash_relation_column_list_ := cols,
    hash_table_ := some (createUnsafeHashMap (1024 * 1024) (256 * 1024 * 1024) key_size),
    null_index_set_ := false, null_index_list_ := [], arrayid_list_ := [] }

/-- `HashRelation::Insert` (lines 304-322): asserts the map handle is present
(`none` models the fatal assertion failure), then appends; a failed append
surfaces as `CapacityError` with the map contents unchanged. -/
def HashRelation.Insert (s : HashRelation) (v : Int) (payload : Key)
    (array_id id : Nat) : Option (Status × HashRelation) :=
  match s.hash_table_ with
  | none => none
  | some m =>
    match hashMapAppend m payload v ⟨array_id, id⟩ with
    | none => some (Status.CapacityError "Insert to HashMap failed.", s)
    | some m2 => some (Status.OK, { s with hash_table_ := some m2 })

/-- `HashRelation::InsertNull` (lines 324-332): the first null row replaces
the null list with a singleton and raises the flag; later null rows are
appended. -/
def HashRelation.InsertNull (s : HashRelation) (array_id id : Nat) :
    Status × HashRelation :=
  if s.null_index_set_ then
    (Status.OK, { s with null_index_list_ := s.null_index_list_ ++ [⟨array_id, id⟩] })
  else
    (Status.OK, { s with null_index_set_ := true,
                         null_index_list_ := [⟨array_id, id⟩] })

/-- Row loop of `AppendKeyColumn` (lines 160-173): insert each (hash, key)
row at the current batch id, propagating the first non-OK status
(`RETURN_NOT_OK`); `none` models the fatal assertion inside `Insert`. -/
def appendRowsAux (s : HashRelation) (i : Nat) :
    List (Int × Key) → Option (Status × HashRelation)
  | [] => some (Status.OK, s)
  | (v, k) :: rest =>
    match s.Insert v k s.num_arrays_ i with
    | none => none
    | some (Status.OK, s2) => appendRowsAux s2 (i + 1) rest
    | some (st, s2) => some (st, s2)

/-- `HashRelation::AppendKeyColumn` (lines 160-173, the typed-key overload;
the string and UnsafeRow overloads have the same row loop): runs the row loop
and increments `num_arrays_` only after all rows succeeded. -/
def HashRelation.AppendKeyColumn (s : HashRelation) (rows : List (Int × Key)) :
    Option (Status × HashRelation) :=
  match appendRowsAux s 0 rows with
  | some (Status.OK, s2) => some (Status.OK, { s2 with num_arrays_ := s2.num_arrays_ + 1 })
  | r => r

/-- `HashRelation::Get` (lines 189-217, all three overloads): throws (modelled
as `none`) on a null map handle; otherwise `safeLookup` — modelled from the
spec, `hashMap.h` being absent — returns 0 and caches the found bucket in
`arrayid_list_`, or returns `HASH_NEW_KEY` (-1) on a miss leaving the cache
untouched. -/
def HashRelation.Get (s : HashRelation) (v : Int) (payload : Key) :
    Option (Int × HashRelation) :=
  match s.hash_table_ with
  | none => none
  | some m =>
    match lookupBucket m.entries (v, payload) with
    | some bucket => some (0, { s with arrayid_list_ := bucket })
    | none => some (HASH_NEW_KEY, s)

/-- `HashRelation::IfExists` (lines 219-240, all three overloads): throws
(modelled as `none`) on a null map handle; otherwise the three-argument
`safeLookup` — modelled from the spec — reports existence without an output
list. -/
def HashRelation.IfExists (s : HashRelation) (v : Int) (payload : Key) :
    Option (Int × HashRelation) :=
  match s.hash_table_ with
  | none => none
  | some m =>
    match lookupBucket m.entries (v, payload) with
    | some _ => some (0, s)
    | none => some (HASH_NEW_KEY, s)

/-- `HashRelation::GetNull` (line 242). -/
def HashRelation.GetNull (s : HashRelation) : Int :=
  if s.null_index_set_ then 0 else HASH_NEW_KEY

/-- `HashRelation::GetItemListByIndex` (line 290): returns the cached
last-lookup list regardless of the argument. -/
def HashRelation.GetItemListByIndex (s : HashRelation) (_i : Int) :
    List ArrayItemIndex :=
  s.arrayid_list_

/-- `HashRelation::UnsafeGetHashTableObject` (lines 258-272): `Invalid` on a
null handle; otherwise the ordered descriptor triple
[(header, sizeof header), (key-slot array, capacity * stride),
(bytes region, cursor)] and OK. -/
def HashRelation.UnsafeGetHashTableObject (s : HashRelation) :
    Status × List (Int × Nat) :=
  match s.hash_table_ with
  | none => (Status.Invalid "UnsafeGetHashTableObject hash_table is null", [])
  | some m =>
    (Status.OK,
     [(m.selfAddr, sizeofUnsafeHashMap),
      (m.keyArray, m.arrayCapacity * m.bytesInKeyArray),
      (m.bytesMap, m.cursor)])

/-- `HashRelation::UnsafeSetHashTableObject` (lines 274-283): asserts exactly
3 descriptors (`none` models the fatal assertion), then adopts the header the
first address points at — passed here as `m`, since the embedding has no raw
memory — patching its cursor and region addresses from the descriptors, and
raises the attached flag. -/
def HashRelation.UnsafeSetHashTableObject (s : HashRelation) (m : UnsafeHashMap)
    (descs : List (Int × Nat)) : Option (Status × HashRelation) :=
  match descs with
  | [(a0, _), (a1, _), (a2, sz2)] =>
    some (Status.OK,
      { s with hash_table_ := some { m with selfAddr := a0, keyArray := a1,
                                            bytesMap := a2, cursor := sz2 },
               attached := true })
  | _ => none

/-- `HashRelation::~HashRelation` (lines 130-135), reduced to its observable
decision: `destroyHashMap` runs exactly when the handle is non-null and the
instance is not in attached mode. -/
def destructorDestroysMap (s : HashRelation) : Bool :=
  s.hash_table_.isSome && !s.attached

/-- Modelled from the spec (section 4.5, `AppendKeyColumn`): the row loop of
the null-aware typed append generated outside src/ (only `InsertNull` itself
is in the given file).  For each row: a null key routes its Row Locator to
the null bucket via `InsertNull`; a non-null key is inserted into the map,
with the first non-OK status propagated. -/
def appendRowsNullAux (s : HashRelation) (i : Nat) :
    List (Int × Option Key) → Option (Status × HashRelation)
  | [] => some (Status.OK, s)
  | (_, none) :: rest =>
    match s.InsertNull s.num_arrays_ i with
    | (Status.OK, s2) => appendRowsNullAux s2 (i + 1) rest
    | (st, s2) => some (st, s2)
  | (v, some k) :: rest =>
    match s.Insert v k s.num_arrays_ i with
    | none => none
    | some (Status.OK, s2) => appendRowsNullAux s2 (i + 1) rest
    | some (st, s2) => some (st, s2)

/-- Modelled from the spec (section 4.5): the null-aware `AppendKeyColumn`;
processes every row of the batch, then increments the batch counter. -/
def HashRelation.AppendKeyColumnWithNulls (s : HashRelation)
    (rows : List (Int × Option Key)) : Option (Status × HashRelation) :=
  match appendRowsNullAux s 0 rows with
  | some (Status.OK, s2) => some (Status.OK, { s2 with num_arrays_ := s2.num_arrays_ + 1 })
  | r => r

/-! ## Reference functions used by the theorem statements -/

/-- Pair each key of a batch with its hash under the caller's hash function
`hf` (the key column handed to `AppendKeyColumn` is the pre-hashed column;
null rows carry an unused hash). -/
def hashRows (hf : Key → Int) (batch : List (Option Key)) : List (Int × Option Key) :=
  batch.map (fun okey => ((okey.map hf).getD 0, okey))

/-- Build phase: append a list of batches in order, stopping at the first
non-OK status or fatal error. -/
def buildBatches (hf : Key → Int) (s : HashRelation) :
    List (List (Option Key)) → Option (Status × HashRelation)
  | [] => some (Status.OK, s)
  | batch :: rest =>
    match s.AppendKeyColumnWithNulls (hashRows hf batch) with
    | some (Status.OK, s2) => buildBatches hf s2 rest
    | r => r

/-- Reference fold: insert every (hash, key) row of a batch into the map at
batch id `b`, row offsets from `i`; `none` as soon as one insert fails. -/
def mapInsertAll (b : Nat) : UnsafeHashMap → Nat → List (Int × Key) → Option UnsafeHashMap
  | m, _, [] => some m
  | m, i, (v, k) :: rest =>
    match hashMapAppend m k v ⟨b, i⟩ with
    | none => none
    | some m2 => mapInsertAll b m2 (i + 1) rest

/-- Reference fold for the null-aware append: null rows are skipped (never
inserted into the map), non-null rows are inserted. -/
def mapInsertSkipNulls (b : Nat) : UnsafeHashMap → Nat → List (Int × Option Key) →
    Option UnsafeHashMap
  | m, _, [] => some m
  | m, i, (_, none) :: rest => mapInsertSkipNulls b m (i + 1) rest
  | m, i, (v, some k) :: rest =>
    match hashMapAppend m k v ⟨b, i⟩ with
    | none => none
    | some m2 => mapInsertSkipNulls b m2 (i + 1) rest

/-- Row Locators of the null rows of a batch, in row order. -/
def nullLocs (b : Nat) : Nat → List (Int × Option Key) → List ArrayItemIndex
  | _, [] => []
  | i, (_, none) :: rest => ⟨b, i⟩ :: nullLocs b (i + 1) rest
  | i, (_, some _) :: rest => nullLocs b (i + 1) rest

/-- Row Locators of the rows of a batch inserted under exactly the probe pair
`hk` = (hash, key), in row order. -/
def matchLocs (hk : Int × Key) (b : Nat) : Nat → List (Int × Option Key) → List ArrayItemIndex
  | _, [] => []
  | i, (v, okey) :: rest =>
    if v = hk.1 ∧ okey = some hk.2 then ⟨b, i⟩ :: matchLocs hk b (i + 1) rest
    else matchLocs hk b (i + 1) rest

/-- Row Locators of the rows of one batch whose key equals `k0`, in row
order. -/
def keyRowLocs (k0 : Key) (b : Nat) : Nat → List (Option Key) → List ArrayItemIndex
  | _, [] => []
  | i, okey :: rest =>
    if okey = some k0 then ⟨b, i⟩ :: keyRowLocs k0 b (i + 1) rest
    else keyRowLocs k0 b (i + 1) rest

/-- Row Locators, across a list of batches starting at batch id `b0`, of all
rows whose key equals `k0`, in insertion order. -/
def keyLocs (k0 : Key) : Nat → List (List (Option Key)) → List ArrayItemIndex
  | _, [] => []
  | b, batch :: rest => keyRowLocs k0 b 0 batch ++ keyLocs k0 (b + 1) rest

/-- Extend the optional bucket stored for a key by newly appended locators:
no entry appears exactly when there was none and nothing was appended. -/
def extendLookup (old : Option (List ArrayItemIndex)) (ls : List ArrayItemIndex) :
    Option (List ArrayItemIndex) :=
  match old, ls with
  | some bucket, ls => some (bucket ++ ls)
  | none, [] => none
  | none, ls => some ls

/-! ## Build operations (for the GetNull / InsertNull bookkeeping) -/

/-- One call against a `HashRelation` instance during the build phase. -/
inductive BuildOp where
  | insertOp (v : Int) (k : Key) (b i : Nat)
  | insertNullOp (b i : Nat)
  | getOp (v : Int) (k : Key)
  | ifExistsOp (v : Int) (k : Key)
  | appendBatchOp (rows : List (Int × Key))
deriving DecidableEq, Repr

/-- Apply one build operation to the instance; a thrown error or non-OK
status is the caller's concern and leaves the object as the operation left
it. -/
def applyBuildOp (s : HashRelation) : BuildOp → HashRelation
  | .insertOp v k b i =>
    match s.Insert v k b i with
    | none => s
    | some (_, s2) => s2
  | .insertNullOp b i => (s.InsertNull b i).2
  | .getOp v k =>
    match s.Get v k with
    | none => s
    | some (_, s2) => s2
  | .ifExistsOp v k =>
    match s.IfExists v k with
    | none => s
    | some (_, s2) => s2
  | .appendBatchOp rows =>
    match s.AppendKeyColumn rows with
    | none => s
    | some (_, s2) => s2

/-- Run a sequence of build operations. -/
def runBuildOps (s : HashRelation) (ops : List BuildOp) : HashRelation :=
  ops.foldl applyBuildOp s

/-- Whether the operation is a call to `InsertNull`. -/
def BuildOp.callsInsertNull : BuildOp → Bool
  | .insertNullOp _ _ => true
  | _ => false

/-! ## Column specializations (hash_relation.h lines 48-103) -/

/-- Runtime type tag of an arrow array, as far as the column claims need. -/
inductive ArrowType where
  | int32
  | float64
  | utf8
  | other (tag : Nat)
deriving DecidableEq, Repr

/-- An input `arrow::Array`, reduced to its runtime type tag and length. -/
structure ArrowArray where
  ty : ArrowType
  len : Nat
deriving DecidableEq, Repr

/-- Whether an array's type matches the numeric `Int32Type` column
specialization (spec section 4.3: the type an `AppendArray` call is
"compatible" with). -/
def numericCompatible (ty : ArrowType) : Bool :=
  ty == ArrowType.int32

/-- `TypedHashRelationColumn<DataType, enable_if_number>` (lines 51-76):
per-batch array store of a numeric payload column. -/
structure TypedHashRelationColumnNum where
  array_vector_ : List ArrowArray
deriving DecidableEq, Repr

/-- Its `AppendColumn` (lines 60-64): wraps the input and pushes it,
returning OK unconditionally — no type check is performed. -/
def TypedHashRelationColumnNum.AppendColumn (c : TypedHashRelationColumnNum)
    (arr : ArrowArray) : Status × TypedHashRelationColumnNum :=
  (Status.OK, { array_vector_ := c.array_vector_ ++ [arr] })

/-- `TypedHashRelationColumn<DataType, enable_if_string_like>`
(lines 78-103): per-batch array store of a string-like payload column. -/
structure TypedHashRelationColumnStr where
  array_vector_ : List ArrowArray
deriving DecidableEq, Repr

/-- Its `AppendColumn` (lines 86-90): wraps the input as a `StringArray` and
pushes it, returning OK unconditionally — no type check is performed. -/
def TypedHashRelationColumnStr.AppendColumn (c : TypedHashRelationColumnStr)
    (arr : ArrowArray) : Status × TypedHashRelationColumnStr :=
  (Status.OK, { array_vector_ := c.array_vector_ ++ [arr] })

/-! ## Shared concrete states for the witnesses -/

/-- A relation built by the constructors that never create a map (lines
114-119): the map handle is null. -/
def relNoTable : HashRelation :=
  { attached := false, num_arrays_ := 0, hash_relation_column_list_ := [],
    hash_table_ := none, null_index_set_ := false, null_index_list_ := [],
    arrayid_list_ := [] }

/-- A freshly constructed owning relation. -/
def relOwned : HashRelation := HashRelation.make 0 [] (-1)

/-- A small concrete map header for the attach witnesses. -/
def mW : UnsafeHashMap := createUnsafeHashMap 4 64 (-1)

/-- A concrete descriptor triple. -/
def descsW : List (Int × Nat) := [(100, 48), (200, 64), (300, 16)]

/-- The state `relOwned` reaches after attaching `mW` through `descsW`. -/
def relAttachedW : HashRelation :=
  { relOwned with
    hash_table_ := some { mW with selfAddr := 100, keyArray := 200,
                                  bytesMap := 300, cursor := 16 },
    attached := true }

/-- A relation holding one key (hash 3, numeric key 3) with one locator. -/
def relProbe : HashRelation :=
  { attached := false, num_arrays_ := 1, hash_relation_column_list_ := [],
    hash_table_ := some { entries := [((3, Key.num 3), [⟨0, 0⟩])], cursor := 16,
                          maxBytes := 64, arrayCapacity := 4, bytesInKeyArray := 8,
                          keyWidthHint := 8, selfAddr := 0, keyArray := 0,
                          bytesMap := 0 },
    null_index_set_ := false, null_index_list_ := [], arrayid_list_ := [] }

/-! ## Claims -/

/-- C10: for every function context, payload-column list and key-size hint,
the three-argument constructor creates the underlying map with fixed initial
key-slot capacity `1024 * 1024` and fixed maximum bytes-region size
`256 * 1024 * 1024`, forwarding only the key-size hint. -/
theorem c10_constructor_fixed_parameters (ctx : Nat) (cols : List Nat) (key_size : Int) :
    ∃ m : UnsafeHashMap,
      (HashRelation.make ctx cols key_size).hash_table_ = some m ∧
      m.arrayCapacity = 1024 * 1024 ∧
      m.maxBytes = 256 * 1024 * 1024 ∧
      m.keyWidthHint = key_size ∧
      m.entries = [] ∧ m.cursor = 0 ∧
      (HashRelation.make ctx cols key_size).hash_relation_column_list_ = cols :=
  ⟨createUnsafeHashMap (1024 * 1024) (256 * 1024 * 1024) key_size,
   rfl, rfl, rfl, rfl, rfl, rfl, rfl⟩

/-- C5: every probe or build operation (`Get`, `IfExists`, `Insert`) invoked
while the map handle is null fails fatally (`none` models the thrown
`std::runtime_error` / failed assertion), for every key kind and hash. -/
theorem c5_null_handle_fatal (s : HashRelation) (h : s.hash_table_ = none)
    (v : Int) (k : Key) (b i : Nat) :
    s.Get v k = none ∧ s.IfExists v k = none ∧ s.Insert v k b i = none := by
  refine ⟨?_, ?_, ?_⟩ <;>
    simp [HashRelation.Get, HashRelation.IfExists, HashRelation.Insert, h]

/-- Witness for C5 at a concrete mapless relation, covering all three key
kinds. -/
theorem c5_null_handle_fatal_witness :
    (relNoTable.Get 3 (Key.num 3) = none ∧
     relNoTable.IfExists 3 (Key.num 3) = none ∧
     relNoTable.Insert 3 (Key.num 3) 0 0 = none) ∧
    (relNoTable.Get 5 (Key.str [97]) = none ∧
     relNoTable.IfExists 5 (Key.str [97]) = none ∧
     relNoTable.Insert 5 (Key.str [97]) 0 0 = none) ∧
    (relNoTable.Get 7 (Key.row [1, 2]) = none ∧
     relNoTable.IfExists 7 (Key.row [1, 2]) = none ∧
     relNoTable.Insert 7 (Key.row [1, 2]) 0 0 = none) :=
  ⟨c5_null_handle_fatal relNoTable rfl 3 (Key.num 3) 0 0,
   c5_null_handle_fatal relNoTable rfl 5 (Key.str [97]) 0 0,
   c5_null_handle_fatal relNoTable rfl 7 (Key.row [1, 2]) 0 0⟩

/-- C9 counterexample: the numeric specialization's `AppendColumn` returns
`Status::OK` even for a string-typed (incompatible) input array, so the
claimed non-OK failure on incompatibility does not happen. -/
theorem c9_counterexample_incompatible_returns_ok :
    numericCompatible ArrowType.utf8 = false ∧
    (TypedHashRelationColumnNum.AppendColumn { array_vector_ := [] }
      { ty := ArrowType.utf8, len := 0 }).1 = Status.OK :=
  ⟨rfl, rfl⟩

/-- C9 (amended): for both column specializations, `AppendColumn` returns OK
and appends the array to the column's store for every supplied array,
regardless of the array's type; type incompatibility is not detected or
reported through the returned status. -/
theorem c9_appendcolumn_always_ok (cn : TypedHashRelationColumnNum)
    (cs : TypedHashRelationColumnStr) (arr : ArrowArray) :
    cn.AppendColumn arr = (Status.OK, { array_vector_ := cn.array_vector_ ++ [arr] }) ∧
    cs.AppendColumn arr = (Status.OK, { array_vector_ := cs.array_vector_ ++ [arr] }) :=
  ⟨rfl, rfl⟩

/-- C6: `UnsafeSetHashTableObject` raises the attached flag, and the
destructor frees the map exactly when the handle is non-null and the
instance is not attached; hence destruction after an attach never frees the
imported buffers. -/
theorem c6_attached_disables_destroy (s : HashRelation) (m : UnsafeHashMap)
    (descs : List (Int × Nat)) (h : descs.length = 3) :
    (∃ st s2, s.UnsafeSetHashTableObject m descs = some (st, s2) ∧
        s2.attached = true ∧ destructorDestroysMap s2 = false) ∧
    (destructorDestroysMap s = true ↔ s.hash_table_ ≠ none ∧ s.attached = false) := by
  constructor
  · obtain ⟨d0, d1, d2, rfl⟩ := List.length_eq_three.mp h
    obtain ⟨a0, z0⟩ := d0
    obtain ⟨a1, z1⟩ := d1
    obtain ⟨a2, z2⟩ := d2
    exact ⟨Status.OK, _, rfl, rfl, rfl⟩
  · simp [destructorDestroysMap, Bool.and_eq_true, Option.isSome_iff_ne_none,
          Bool.not_eq_true']

/-- Witness for C6: attaching a concrete descriptor triple to a concrete
relation yields an attached state the destructor would not free, while the
original owning relation would be freed. -/
theorem c6_attached_disables_destroy_witness :
    relOwned.UnsafeSetHashTableObject mW descsW = some (Status.OK, relAttachedW) ∧
    relAttachedW.attached = true ∧
    destructorDestroysMap relAttachedW = false ∧
    destructorDestroysMap relOwned = true := by
  obtain ⟨⟨st, s2, _, _, _⟩, hiff⟩ :=
    c6_attached_disables_destroy relOwned mW descsW rfl
  exact ⟨rfl, rfl, rfl, hiff.mpr ⟨by decide, rfl⟩⟩

/-- C7: with a non-null handle, `UnsafeGetHashTableObject` reports OK and
exactly the ordered descriptor triple [(header, sizeof header),
(key-slot array, capacity * stride), (bytes region, cursor)]; with a null
handle it reports Invalid; `UnsafeSetHashTableObject` accepts exactly
3 descriptors and fails fatally on any other count. -/
theorem c7_handoff_descriptors (s : HashRelation) (m : UnsafeHashMap)
    (h : s.hash_table_ = some m) (s2 : HashRelation) (m2 : UnsafeHashMap)
    (descs : List (Int × Nat)) :
    s.UnsafeGetHashTableObject =
      (Status.OK, [(m.selfAddr, sizeofUnsafeHashMap),
                   (m.keyArray, m.arrayCapacity * m.bytesInKeyArray),
                   (m.bytesMap, m.cursor)]) ∧
    (∀ s0 : HashRelation, s0.hash_table_ = none →
      s0.UnsafeGetHashTableObject =
        (Status.Invalid "UnsafeGetHashTableObject hash_table is null", [])) ∧
    (descs.length ≠ 3 → s2.UnsafeSetHashTableObject m2 descs = none) ∧
    (descs.length = 3 →
      ∃ st s3, s2.UnsafeSetHashTableObject m2 descs = some (st, s3)) := by
  refine ⟨?_, ?_, ?_, ?_⟩
  · simp [HashRelation.UnsafeGetHashTableObject, h]
  · intro s0 h0
    simp [HashRelation.UnsafeGetHashTableObject, h0]
  · intro hne
    rcases descs with _ | ⟨⟨a0, z0⟩, _ | ⟨⟨a1, z1⟩, _ | ⟨⟨a2, z2⟩, _ | ⟨d3, rest⟩⟩⟩⟩ <;>
      first
        | rfl
        | exact absurd rfl hne
  · intro h3
    obtain ⟨d0, d1, d2, rfl⟩ := List.length_eq_three.mp h3
    obtain ⟨a0, z0⟩ := d0
    obtain ⟨a1, z1⟩ := d1
    obtain ⟨a2, z2⟩ := d2
    exact ⟨Status.OK, _, rfl⟩

/-- Witness for C7 at concrete states: the exported triple of a fresh owning
relation, the Invalid result on a mapless relation, and rejection of a
1-descriptor attach. -/
theorem c7_handoff_descriptors_witness :
    relOwned.UnsafeGetHashTableObject =
      (Status.OK, [(0, 48), (0, 1024 * 1024 * 8), (0, 0)]) ∧
    relNoTable.UnsafeGetHashTableObject =
      (Status.Invalid "UnsafeGetHashTableObject hash_table is null", []) ∧
    relOwned.UnsafeSetHashTableObject mW [(1, 2)] = none := by
  obtain ⟨hget, hnone, hset_ne, _⟩ :=
    c7_handoff_descriptors relOwned _ rfl relOwned mW [(1, 2)]
  exact ⟨hget, hnone relNoTable rfl, hset_ne (by decide)⟩

/-- C8: `IfExists` returns its result with the relation's state unchanged —
in particular the cached last-lookup list is untouched — whereas a `Get`
returning 0 (found) populates the cached list with the stored bucket. -/
theorem c8_ifexists_pure_get_caches (s : HashRelation) (m : UnsafeHashMap)
    (h : s.hash_table_ = some m) (v : Int) (k : Key) :
    (∃ r, s.IfExists v k = some (r, s)) ∧
    (∀ r s2, s.IfExists v k = some (r, s2) →
      s2 = s ∧ s2.arrayid_list_ = s.arrayid_list_ ∧
      s2.GetItemListByIndex 0 = s.GetItemListByIndex 0) ∧
    (∀ s2, s.Get v k = some (0, s2) →
      s2.arrayid_list_ = (lookupBucket m.entries (v, k)).getD [] ∧
      s2.GetItemListByIndex 0 = (lookupBucket m.entries (v, k)).getD []) := by
  unfold HashRelation.IfExists HashRelation.Get
  rw [h]
  cases hl : lookupBucket m.entries (v, k) <;>
    simp [HashRelation.GetItemListByIndex, HASH_NEW_KEY, hl]

/-- Witness for C8 at a concrete one-key relation: `IfExists` leaves the
state identical, `Get` caches the bucket `[(0, 0)]`. -/
theorem c8_ifexists_pure_get_caches_witness :
    relProbe.IfExists 3 (Key.num 3) = some (0, relProbe) ∧
    relProbe.Get 3 (Key.num 3) =
      some (0, { relProbe with arrayid_list_ := [⟨0, 0⟩] }) ∧
    ({ relProbe with arrayid_list_ := [⟨0, 0⟩] } : HashRelation).GetItemListByIndex 0
      = [⟨0, 0⟩] := by
  obtain ⟨⟨r, hif⟩, hpure, hget⟩ :=
    c8_ifexists_pure_get_caches relProbe _ rfl 3 (Key.num 3)
  exact ⟨rfl, rfl, (hget { relProbe with arrayid_list_ := [⟨0, 0⟩] } rfl).2⟩

/-! ## Null-flag bookkeeping (claim C3) -/

/-- `Insert` touches only the map handle: every other field, in particular
the null flag, is preserved. -/
theorem Insert_frame (s : HashRelation) (v : Int) (k : Key) (b i : Nat) (st : Status)
    (s2 : HashRelation) (h : s.Insert v k b i = some (st, s2)) :
    s2.attached = s.attached ∧ s2.num_arrays_ = s.num_arrays_ ∧
    s2.hash_relation_column_list_ = s.hash_relation_column_list_ ∧
    s2.null_index_set_ = s.null_index_set_ ∧
    s2.null_index_list_ = s.null_index_list_ ∧
    s2.arrayid_list_ = s.arrayid_list_ := by
  cases hm : s.hash_table_ with
  | none => simp [HashRelation.Insert, hm] at h
  | some m =>
    simp only [HashRelation.Insert, hm] at h
    cases happ : hashMapAppend m k v ⟨b, i⟩ <;> simp only [happ] at h <;>
      (simp only [Option.some.injEq, Prod.mk.injEq] at h
       obtain ⟨rfl, rfl⟩ := h
       exact ⟨rfl, rfl, rfl, rfl, rfl, rfl⟩)

/-- `InsertNull` returns OK, raises the null flag, and touches nothing but
the null bucket. -/
theorem InsertNull_spec (s : HashRelation) (b i : Nat) :
    (s.InsertNull b i).1 = Status.OK ∧
    (s.InsertNull b i).2.null_index_set_ = true ∧
    (s.InsertNull b i).2.attached = s.attached ∧
    (s.InsertNull b i).2.num_arrays_ = s.num_arrays_ ∧
    (s.InsertNull b i).2.hash_table_ = s.hash_table_ ∧
    (s.InsertNull b i).2.arrayid_list_ = s.arrayid_list_ := by
  unfold HashRelation.InsertNull
  by_cases hb : s.null_index_set_ <;> simp [hb]

/-- `Get` can only rewrite the cached lookup list. -/
theorem Get_frame (s : HashRelation) (v : Int) (k : Key) (r : Int)
    (s2 : HashRelation) (h : s.Get v k = some (r, s2)) :
    s2.null_index_set_ = s.null_index_set_ ∧ s2.num_arrays_ = s.num_arrays_ ∧
    s2.hash_table_ = s.hash_table_ ∧ s2.null_index_list_ = s.null_index_list_ := by
  cases hm : s.hash_table_ with
  | none => simp [HashRelation.Get, hm] at h
  | some m =>
    simp only [HashRelation.Get, hm] at h
    cases hl : lookupBucket m.entries (v, k) <;> simp only [hl] at h <;>
      (simp only [Option.some.injEq, Prod.mk.injEq] at h
       obtain ⟨rfl, rfl⟩ := h
       refine ⟨rfl, rfl, ?_, rfl⟩
       first
         | rfl
         | exact hm)

/-- `IfExists` returns the state unchanged. -/
theorem IfExists_frame (s : HashRelation) (v : Int) (k : Key) (r : Int)
    (s2 : HashRelation) (h : s.IfExists v k = some (r, s2)) : s2 = s := by
  cases hm : s.hash_table_ with
  | none => simp [HashRelation.IfExists, hm] at h
  | some m =>
    simp only [HashRelation.IfExists, hm] at h
    cases hl : lookupBucket m.entries (v, k) <;> simp only [hl] at h <;>
      (simp only [Option.some.injEq, Prod.mk.injEq] at h
       exact h.2.symm)

/-- The row loop of the non-null `AppendKeyColumn` preserves the null flag
and the null bucket. -/
theorem appendRowsAux_null_frame (rows : List (Int × Key)) :
    ∀ (s : HashRelation) (i : Nat) (st : Status) (s2 : HashRelation),
      appendRowsAux s i rows = some (st, s2) →
      s2.null_index_set_ = s.null_index_set_ ∧
      s2.null_index_list_ = s.null_index_list_ := by
  induction rows with
  | nil =>
    intro s i st s2 h
    simp only [appendRowsAux, Option.some.injEq, Prod.mk.injEq] at h
    obtain ⟨rfl, rfl⟩ := h
    exact ⟨rfl, rfl⟩
  | cons vk rest ih =>
    intro s i st s2 h
    obtain ⟨v, k⟩ := vk
    simp only [appendRowsAux] at h
    cases hins : s.Insert v k s.num_arrays_ i <;> rw [hins] at h
    · exact absurd h (by simp)
    · rename_i p
      obtain ⟨st1, s1⟩ := p
      have hfr := Insert_frame s v k s.num_arrays_ i st1 s1 hins
      cases st1 with
      | OK =>
        obtain ⟨h1, h2⟩ := ih s1 (i + 1) st s2 h
        exact ⟨h1.trans hfr.2.2.2.1, h2.trans hfr.2.2.2.2.1⟩
      | NotImplemented msg =>
        simp only [Option.some.injEq, Prod.mk.injEq] at h
        obtain ⟨rfl, rfl⟩ := h
        exact ⟨hfr.2.2.2.1, hfr.2.2.2.2.1⟩
      | CapacityError msg =>
        simp only [Option.some.injEq, Prod.mk.injEq] at h
        obtain ⟨rfl, rfl⟩ := h
        exact ⟨hfr.2.2.2.1, hfr.2.2.2.2.1⟩
      | Invalid msg =>
        simp only [Option.some.injEq, Prod.mk.injEq] at h
        obtain ⟨rfl, rfl⟩ := h
        exact ⟨hfr.2.2.2.1, hfr.2.2.2.2.1⟩

/-- `AppendKeyColumn` never touches the null flag. -/
theorem AppendKeyColumn_null_frame (s : HashRelation) (rows : List (Int × Key))
    (st : Status) (s2 : HashRelation) (h : s.AppendKeyColumn rows = some (st, s2)) :
    s2.null_index_set_ = s.null_index_set_ := by
  unfold HashRelation.AppendKeyColumn at h
  cases haux : appendRowsAux s 0 rows <;> rw [haux] at h
  · exact absurd h (by simp)
  · rename_i p
    obtain ⟨st1, s1⟩ := p
    have hfr := appendRowsAux_null_frame rows s 0 st1 s1 haux
    cases st1 with
    | OK =>
      simp only [Option.some.injEq, Prod.mk.injEq] at h
      obtain ⟨rfl, rfl⟩ := h
      exact hfr.1
    | NotImplemented msg =>
      simp only [Option.some.injEq, Prod.mk.injEq] at h
      obtain ⟨rfl, rfl⟩ := h
      exact hfr.1
    | CapacityError msg =>
      simp only [Option.some.injEq, Prod.mk.injEq] at h
      obtain ⟨rfl, rfl⟩ := h
      exact hfr.1
    | Invalid msg =>
      simp only [Option.some.injEq, Prod.mk.injEq] at h
      obtain ⟨rfl, rfl⟩ := h
      exact hfr.1

/-- One build operation raises the null flag exactly when it is an
`InsertNull` call. -/
theorem applyBuildOp_null_flag (s : HashRelation) (op : BuildOp) :
    (applyBuildOp s op).null_index_set_ = (s.null_index_set_ || op.callsInsertNull) := by
  cases op with
  | insertOp v k b i =>
    simp only [applyBuildOp, BuildOp.callsInsertNull, Bool.or_false]
    cases hins : s.Insert v k b i with
    | none => rfl
    | some p =>
      obtain ⟨st, s2⟩ := p
      exact (Insert_frame s v k b i st s2 hins).2.2.2.1
  | insertNullOp b i =>
    simp only [applyBuildOp, BuildOp.callsInsertNull, Bool.or_true]
    exact (InsertNull_spec s b i).2.1
  | getOp v k =>
    simp only [applyBuildOp, BuildOp.callsInsertNull, Bool.or_false]
    cases hg : s.Get v k with
    | none => rfl
    | some p =>
      obtain ⟨r, s2⟩ := p
      exact (Get_frame s v k r s2 hg).1
  | ifExistsOp v k =>
    simp only [applyBuildOp, BuildOp.callsInsertNull, Bool.or_false]
    cases hg : s.IfExists v k with
    | none => rfl
    | some p =>
      obtain ⟨r, s2⟩ := p
      have := IfExists_frame s v k r s2 hg
      exact congrArg HashRelation.null_index_set_ this
  | appendBatchOp rows =>
    simp only [applyBuildOp, BuildOp.callsInsertNull, Bool.or_false]
    cases ha : s.AppendKeyColumn rows with
    | none => rfl
    | some p =>
      obtain ⟨st, s2⟩ := p
      exact AppendKeyColumn_null_frame s rows st s2 ha

/-- Across a whole operation sequence, the null flag records exactly whether
some `InsertNull` call happened. -/
theorem runBuildOps_null_flag (ops : List BuildOp) :
    ∀ s : HashRelation,
      (runBuildOps s ops).null_index_set_ =
        (s.null_index_set_ || ops.any BuildOp.callsInsertNull) := by
  induction ops with
  | nil => intro s; simp [runBuildOps]
  | cons op rest ih =>
    intro s
    have hstep : runBuildOps s (op :: rest) = runBuildOps (applyBuildOp s op) rest := rfl
    rw [hstep, ih, applyBuildOp_null_flag, List.any_cons]
    cases s.null_index_set_ <;> cases op.callsInsertNull <;> simp

/-- C3: starting from a freshly constructed relation, after any sequence of
build operations `GetNull` returns the `HASH_NEW_KEY` sentinel iff
`InsertNull` was never called, and returns 0 otherwise; the sentinel is
distinct from 0. -/
theorem c3_getnull_sentinel (ctx : Nat) (cols : List Nat) (key_size : Int)
    (ops : List BuildOp) :
    ((runBuildOps (HashRelation.make ctx cols key_size) ops).GetNull = HASH_NEW_KEY ↔
      ∀ op ∈ ops, op.callsInsertNull = false) ∧
    ((runBuildOps (HashRelation.make ctx cols key_size) ops).GetNull = 0 ↔
      ∃ op ∈ ops, op.callsInsertNull = true) ∧
    HASH_NEW_KEY ≠ 0 := by
  have hflag := runBuildOps_null_flag ops (HashRelation.make ctx cols key_size)
  rw [show (HashRelation.make ctx cols key_size).null_index_set_ = false from rfl,
      Bool.false_or] at hflag
  unfold HashRelation.GetNull
  rw [hflag]
  cases hany : ops.any BuildOp.callsInsertNull with
  | false =>
    have hall : ∀ op ∈ ops, op.callsInsertNull = false := by
      intro op hop
      simpa using List.any_eq_false.mp hany op hop
    refine ⟨⟨fun _ => hall, fun _ => by simp [HASH_NEW_KEY]⟩,
            ⟨fun habs => ?_, ?_⟩, by decide⟩
    · simp [HASH_NEW_KEY] at habs
    · rintro ⟨op, hop, htrue⟩
      rw [hall op hop] at htrue
      exact absurd htrue (by decide)
  | true =>
    obtain ⟨op, hop, htrue⟩ := List.any_eq_true.mp hany
    refine ⟨⟨fun habs => ?_, fun hall => ?_⟩,
            ⟨fun _ => ⟨op, hop, htrue⟩, fun _ => by simp⟩, by decide⟩
    · simp [HASH_NEW_KEY] at habs
    · rw [hall op hop] at htrue
      exact absurd htrue (by decide)

/-! ## Capacity-failure propagation (claim C4) -/

/-- If the reference fold inserts all rows, the row loop succeeds and the
final state holds exactly the folded map. -/
theorem appendRowsAux_of_insertAll_ok (rows : List (Int × Key)) :
    ∀ (s : HashRelation) (m m2 : UnsafeHashMap) (i : Nat),
      s.hash_table_ = some m →
      mapInsertAll s.num_arrays_ m i rows = some m2 →
      appendRowsAux s i rows = some (Status.OK, { s with hash_table_ := some m2 }) := by
  induction rows with
  | nil =>
    intro s m m2 i hm hins
    simp only [mapInsertAll, Option.some.injEq] at hins
    subst hins
    obtain ⟨att, na, cl, ht, ns, nl, al⟩ := s
    dsimp only at hm ⊢
    subst hm
    rfl
  | cons vk rest ih =>
    intro s m m2 i hm hins
    obtain ⟨v, k⟩ := vk
    simp only [mapInsertAll] at hins
    cases happ : hashMapAppend m k v ⟨s.num_arrays_, i⟩ <;> simp only [happ] at hins
    · exact absurd hins (by simp)
    · rename_i m1
      simp only [appendRowsAux, HashRelation.Insert, hm, happ]
      exact ih { s with hash_table_ := some m1 } m1 m2 (i + 1) rfl hins

/-- If the reference fold hits capacity at row `j`, the row loop surfaces the
`CapacityError` immediately, with everything inserted before row `j` still in
the map. -/
theorem appendRowsAux_of_insertAll_fail (rows : List (Int × Key)) :
    ∀ (s : HashRelation) (m : UnsafeHashMap) (i : Nat),
      s.hash_table_ = some m →
      mapInsertAll s.num_arrays_ m i rows = none →
      ∃ j m2, j < rows.length ∧
        mapInsertAll s.num_arrays_ m i (rows.take j) = some m2 ∧
        (∃ v k, rows.get? j = some (v, k) ∧
          hashMapAppend m2 k v ⟨s.num_arrays_, i + j⟩ = none) ∧
        appendRowsAux s i rows =
          some (Status.CapacityError "Insert to HashMap failed.",
                { s with hash_table_ := some m2 }) := by
  induction rows with
  | nil =>
    intro s m i hm hins
    simp [mapInsertAll] at hins
  | cons vk rest ih =>
    intro s m i hm hins
    obtain ⟨v, k⟩ := vk
    simp only [mapInsertAll] at hins
    cases happ : hashMapAppend m k v ⟨s.num_arrays_, i⟩ <;> simp only [happ] at hins
    · refine ⟨0, m, by simp, rfl, ⟨v, k, rfl, by simpa using happ⟩, ?_⟩
      simp only [appendRowsAux, HashRelation.Insert, hm, happ]
      obtain ⟨att, na, cl, ht, ns, nl, al⟩ := s
      dsimp only at hm ⊢
      subst hm
      rfl
    · rename_i m1
      obtain ⟨j, m2, hj, hpre, ⟨v2, k2, hget, hfail⟩, hres⟩ :=
        ih { s with hash_table_ := some m1 } m1 (i + 1) rfl hins
      refine ⟨j + 1, m2, by simpa using Nat.succ_lt_succ hj, ?_,
              ⟨v2, k2, hget, ?_⟩, ?_⟩
      · simp only [List.take_succ_cons, mapInsertAll, happ]
        exact hpre
      · have harith : i + 1 + j = i + (j + 1) := by omega
        rw [← harith]
        exact hfail
      · simp only [appendRowsAux, HashRelation.Insert, hm, happ]
        exact hres

/-- C4: if inserting any row of a batch fails, `AppendKeyColumn` returns the
`CapacityError` to the caller immediately; the rows inserted before the
failing one remain in the map and the batch counter is not incremented.  On
success the counter is incremented exactly once, after all rows. -/
theorem c4_append_capacity_atomicity (s : HashRelation) (m : UnsafeHashMap)
    (rows : List (Int × Key)) (h : s.hash_table_ = some m) :
    (∀ m2, mapInsertAll s.num_arrays_ m 0 rows = some m2 →
      s.AppendKeyColumn rows =
        some (Status.OK, { s with hash_table_ := some m2,
                                  num_arrays_ := s.num_arrays_ + 1 })) ∧
    (mapInsertAll s.num_arrays_ m 0 rows = none →
      ∃ j m2, j < rows.length ∧
        mapInsertAll s.num_arrays_ m 0 (rows.take j) = some m2 ∧
        (∃ v k, rows.get? j = some (v, k) ∧
          hashMapAppend m2 k v ⟨s.num_arrays_, j⟩ = none) ∧
        s.AppendKeyColumn rows =
          some (Status.CapacityError "Insert to HashMap failed.",
                { s with hash_table_ := some m2 }) ∧
        ({ s with hash_table_ := some m2 } : HashRelation).num_arrays_
          = s.num_arrays_) := by
  constructor
  · intro m2 hins
    have h1 := appendRowsAux_of_insertAll_ok rows s m m2 0 h hins
    unfold HashRelation.AppendKeyColumn
    rw [h1]
  · intro hins
    obtain ⟨j, m2, hj, hpre, hfail, hres⟩ :=
      appendRowsAux_of_insertAll_fail rows s m 0 h hins
    refine ⟨j, m2, hj, hpre, by simpa using hfail, ?_, rfl⟩
    unfold HashRelation.AppendKeyColumn
    rw [hres]

/-- A map whose bytes region only has room for one numeric insert. -/
def capMapW : UnsafeHashMap :=
  { entries := [], cursor := 0, maxBytes := 16, arrayCapacity := 4,
    bytesInKeyArray := 8, keyWidthHint := 8, selfAddr := 0, keyArray := 0,
    bytesMap := 0 }

/-- A relation over `capMapW`. -/
def capRelW : HashRelation :=
  { attached := false, num_arrays_ := 0, hash_relation_column_list_ := [],
    hash_table_ := some capMapW, null_index_set_ := false, null_index_list_ := [],
    arrayid_list_ := [] }

/-- A two-row batch of distinct numeric keys. -/
def rowsW : List (Int × Key) := [(1, Key.num 1), (2, Key.num 2)]

/-- `capRelW` after its failed append: row 0 inserted, row 1 rejected. -/
def capRelWErr : HashRelation :=
  { capRelW with
    hash_table_ := some { capMapW with entries := [((1, Key.num 1), [⟨0, 0⟩])],
                                       cursor := 16 } }

/-- The map of the fresh owning relation after both rows of `rowsW`. -/
def okMapW2 : UnsafeHashMap :=
  { entries := [((1, Key.num 1), [⟨0, 0⟩]), ((2, Key.num 2), [⟨0, 1⟩])],
    cursor := 32, maxBytes := 256 * 1024 * 1024, arrayCapacity := 1024 * 1024,
    bytesInKeyArray := 8, keyWidthHint := -1, selfAddr := 0, keyArray := 0,
    bytesMap := 0 }

/-- Witness for C4: a concrete batch whose second row exhausts a small map —
the error is surfaced, the first row stays, the counter is unchanged — and
the same batch appended to a roomy map, incrementing the counter once. -/
theorem c4_append_capacity_atomicity_witness :
    capRelW.AppendKeyColumn rowsW =
      some (Status.CapacityError "Insert to HashMap failed.", capRelWErr) ∧
    capRelWErr.num_arrays_ = capRelW.num_arrays_ ∧
    relOwned.AppendKeyColumn rowsW =
      some (Status.OK, { relOwned with hash_table_ := some okMapW2,
                                       num_arrays_ := relOwned.num_arrays_ + 1 }) ∧
    relOwned.num_arrays_ + 1 = 1 := by
  have hok := (c4_append_capacity_atomicity relOwned _ rowsW rfl).1 okMapW2 rfl
  exact ⟨rfl, rfl, hok, rfl⟩

/-! ## Bucket bookkeeping of the modelled map (claims C1 and C2) -/

/-- Appending a record changes only the bucket of its own (hash, key) pair,
where it lands at the end. -/
theorem lookupBucket_addToBucket (es : List ((Int × Key) × List ArrayItemIndex))
    (hk hk' : Int × Key) (loc : ArrayItemIndex) :
    lookupBucket (addToBucket es hk loc) hk' =
      if hk' = hk then some ((lookupBucket es hk).getD [] ++ [loc])
      else lookupBucket es hk' := by
  induction es with
  | nil =>
    by_cases h : hk' = hk
    · subst h
      simp [addToBucket, lookupBucket]
    · simp [addToBucket, lookupBucket, h, Ne.symm h]
  | cons e rest ih =>
    by_cases he : e.1 = hk
    · by_cases h : hk' = hk
      · subst h
        simp [addToBucket, lookupBucket, he]
      · have hne : e.1 ≠ hk' := by
          rw [he]
          exact fun x => h x.symm
        simp [addToBucket, lookupBucket, he, h, hne, Ne.symm h]
    · by_cases h : hk' = hk
      · subst h
        simp [addToBucket, lookupBucket, he, Ne.symm he, ih]
      · simp [addToBucket, lookupBucket, he, h, ih]

/-- Extending by nothing is the identity. -/
theorem extendLookup_nil (o : Option (List ArrayItemIndex)) : extendLookup o [] = o := by
  cases o <;> simp [extendLookup]

/-- Extending twice is extending by the concatenation. -/
theorem extendLookup_append (o : Option (List ArrayItemIndex))
    (a b : List ArrayItemIndex) :
    extendLookup (extendLookup o a) b = extendLookup o (a ++ b) := by
  cases o with
  | some l => simp [extendLookup]
  | none =>
    cases a with
    | nil => simp [extendLookup]
    | cons x xs => cases b <;> simp [extendLookup]

/-- A nonempty extension of an absent bucket is exactly the new list. -/
theorem extendLookup_none_of_ne_nil (ls : List ArrayItemIndex) (h : ls ≠ []) :
    extendLookup none ls = some ls := by
  cases ls with
  | nil => exact absurd rfl h
  | cons x xs => rfl

/-- One successful map append extends exactly the bucket of its (hash, key)
pair by its locator. -/
theorem hashMapAppend_lookup {m m2 : UnsafeHashMap} {k : Key} {v : Int}
    {loc : ArrayItemIndex} (hs : hashMapAppend m k v loc = some m2)
    (hk : Int × Key) :
    lookupBucket m2.entries hk =
      extendLookup (lookupBucket m.entries hk)
        (if hk = (v, k) then [loc] else []) := by
  unfold hashMapAppend at hs
  split at hs
  · simp only [Option.some.injEq] at hs
    subst hs
    show lookupBucket (addToBucket m.entries (v, k) loc) hk = _
    rw [lookupBucket_addToBucket]
    by_cases h : hk = (v, k)
    · rw [if_pos h, if_pos h]
      cases hl : lookupBucket m.entries (v, k) <;> simp [extendLookup, h, hl]
    · rw [if_neg h, if_neg h, extendLookup_nil]
  · exact absurd hs (by simp)

/-- Folding a batch into the map extends every bucket by exactly the
locators of the batch rows inserted under its (hash, key) pair; null rows
are skipped. -/
theorem mapInsertSkipNulls_lookup (rows : List (Int × Option Key)) :
    ∀ (b : Nat) (m m2 : UnsafeHashMap) (i : Nat),
      mapInsertSkipNulls b m i rows = some m2 →
      ∀ hk, lookupBucket m2.entries hk =
        extendLookup (lookupBucket m.entries hk) (matchLocs hk b i rows) := by
  induction rows with
  | nil =>
    intro b m m2 i h hk
    simp only [mapInsertSkipNulls, Option.some.injEq] at h
    subst h
    rw [matchLocs, extendLookup_nil]
  | cons r rest ih =>
    intro b m m2 i h hk
    obtain ⟨v, okey⟩ := r
    cases okey with
    | none =>
      simp only [mapInsertSkipNulls] at h
      rw [ih b m m2 (i + 1) h hk, matchLocs, if_neg (by simp)]
    | some k =>
      simp only [mapInsertSkipNulls] at h
      cases happ : hashMapAppend m k v ⟨b, i⟩ <;> simp only [happ] at h
      · exact absurd h (by simp)
      · rename_i m1
        rw [ih b m1 m2 (i + 1) h hk, hashMapAppend_lookup happ hk,
            extendLookup_append]
        congr 1
        obtain ⟨h1, h2⟩ := hk
        rw [matchLocs]
        by_cases hc : v = h1 ∧ (some k : Option Key) = some h2
        · obtain ⟨hv, hkk⟩ := hc
          simp only [Option.some.injEq] at hkk
          subst hv
          subst hkk
          simp
        · rw [if_neg hc, if_neg ?_, List.nil_append]
          intro he
          simp only [Prod.mk.injEq] at he
          exact hc ⟨he.1.symm, by rw [he.2]⟩

/-- Hashing a batch with a key-determined hash function makes the rows
inserted under (hf k0, k0) exactly the rows whose key is k0. -/
theorem matchLocs_hashRows (hf : Key → Int) (k0 : Key) (b : Nat)
    (batch : List (Option Key)) :
    ∀ i, matchLocs (hf k0, k0) b i (hashRows hf batch) = keyRowLocs k0 b i batch := by
  induction batch with
  | nil => intro i; rfl
  | cons okey rest ih =>
    intro i
    cases okey with
    | none =>
      show matchLocs (hf k0, k0) b i ((0, none) :: hashRows hf rest) = _
      rw [matchLocs, if_neg (by simp), keyRowLocs, if_neg (by simp)]
      exact ih (i + 1)
    | some k =>
      show matchLocs (hf k0, k0) b i ((hf k, some k) :: hashRows hf rest) = _
      by_cases hk : k = k0
      · subst hk
        rw [matchLocs, if_pos ⟨rfl, rfl⟩, keyRowLocs, if_pos rfl, ih (i + 1)]
      · rw [matchLocs, if_neg (by simp [hk]), keyRowLocs, if_neg (by simp [hk])]
        exact ih (i + 1)

/-- Full characterization of a successful null-aware row loop: the map is
the reference fold over the non-null rows, the null bucket collects the null
rows, everything else is untouched. -/
theorem appendRowsNullAux_ok (rows : List (Int × Option Key)) :
    ∀ (s : HashRelation) (m : UnsafeHashMap) (s2 : HashRelation) (i : Nat),
      s.hash_table_ = some m →
      appendRowsNullAux s i rows = some (Status.OK, s2) →
      ∃ m2, mapInsertSkipNulls s.num_arrays_ m i rows = some m2 ∧
        s2 = { s with
          hash_table_ := some m2,
          null_index_set_ := s.null_index_set_ || rows.any (fun r => r.2.isNone),
          null_index_list_ :=
            if s.null_index_set_ = false ∧ rows.any (fun r => r.2.isNone) = true
            then nullLocs s.num_arrays_ i rows
            else s.null_index_list_ ++ nullLocs s.num_arrays_ i rows } := by
  induction rows with
  | nil =>
    intro s m s2 i hm h
    simp only [appendRowsNullAux, Option.some.injEq, Prod.mk.injEq] at h
    obtain ⟨-, rfl⟩ := h
    refine ⟨m, rfl, ?_⟩
    obtain ⟨att, na, cl, ht, ns, nl, al⟩ := s
    dsimp only at hm ⊢
    subst hm
    simp [nullLocs]
  | cons r rest ih =>
    intro s m s2 i hm h
    obtain ⟨v, okey⟩ := r
    obtain ⟨att, na, cl, ht, ns, nl, al⟩ := s
    dsimp only at hm h ⊢
    subst hm
    cases okey with
    | some k =>
      simp only [appendRowsNullAux, HashRelation.Insert] at h
      cases happ : hashMapAppend m k v ⟨na, i⟩ <;> simp only [happ] at h
      · exact absurd h (by simp)
      · rename_i m1
        obtain ⟨m2, hins, hstate⟩ :=
          ih (HashRelation.mk att na cl (some m1) ns nl al) m1 s2 (i + 1) rfl h
        dsimp only at hins hstate
        refine ⟨m2, ?_, ?_⟩
        · simp only [mapInsertSkipNulls, happ]
          exact hins
        · rw [hstate]
          simp only [nullLocs, HashRelation.mk.injEq, List.any_cons, Option.isNone_some,
                     Bool.false_or, and_true, true_and]
    | none =>
      simp only [appendRowsNullAux, HashRelation.InsertNull] at h
      cases ns with
      | false =>
        simp only [Bool.false_eq_true, if_false] at h
        obtain ⟨m2, hins, hstate⟩ :=
          ih (HashRelation.mk att na cl (some m) true [⟨na, i⟩] al) m s2 (i + 1) rfl h
        dsimp only at hins hstate
        refine ⟨m2, ?_, ?_⟩
        · simp only [mapInsertSkipNulls]
          exact hins
        · rw [hstate]
          simp [nullLocs]
      | true =>
        simp only [if_true] at h
        obtain ⟨m2, hins, hstate⟩ :=
          ih (HashRelation.mk att na cl (some m) true (nl ++ [⟨na, i⟩]) al) m s2
            (i + 1) rfl h
        dsimp only at hins hstate
        refine ⟨m2, ?_, ?_⟩
        · simp only [mapInsertSkipNulls]
          exact hins
        · rw [hstate]
          simp [nullLocs]

/-- Batch-level version: a successful null-aware append also increments the
batch counter exactly once. -/
theorem appendKeyColumnWithNulls_ok (s : HashRelation) (m : UnsafeHashMap)
    (rows : List (Int × Option Key)) (s2 : HashRelation)
    (hm : s.hash_table_ = some m)
    (h : s.AppendKeyColumnWithNulls rows = some (Status.OK, s2)) :
    ∃ m2, mapInsertSkipNulls s.num_arrays_ m 0 rows = some m2 ∧
      s2 = { s with
        hash_table_ := some m2,
        num_arrays_ := s.num_arrays_ + 1,
        null_index_set_ := s.null_index_set_ || rows.any (fun r => r.2.isNone),
        null_index_list_ :=
          if s.null_index_set_ = false ∧ rows.any (fun r => r.2.isNone) = true
          then nullLocs s.num_arrays_ 0 rows
          else s.null_index_list_ ++ nullLocs s.num_arrays_ 0 rows } := by
  unfold HashRelation.AppendKeyColumnWithNulls at h
  cases haux : appendRowsNullAux s 0 rows <;> rw [haux] at h
  · exact absurd h (by simp)
  · rename_i p
    obtain ⟨st1, s1⟩ := p
    cases st1 with
    | OK =>
      simp only [Option.some.injEq, Prod.mk.injEq] at h
      obtain ⟨-, rfl⟩ := h
      obtain ⟨m2, hins, hstate⟩ := appendRowsNullAux_ok rows s m s1 0 hm haux
      refine ⟨m2, hins, ?_⟩
      rw [hstate]
    | NotImplemented msg => simp at h
    | CapacityError msg => simp at h
    | Invalid msg => simp at h

/-- Build-phase induction: after a successful multi-batch build, the bucket
probed with a key-determined hash holds exactly the matching rows' locators
across all batches, in insertion order. -/
theorem buildBatches_ok (batches : List (List (Option Key))) :
    ∀ (hf : Key → Int) (s : HashRelation) (m : UnsafeHashMap) (s2 : HashRelation),
      s.hash_table_ = some m →
      buildBatches hf s batches = some (Status.OK, s2) →
      ∃ m2, s2.hash_table_ = some m2 ∧
        s2.num_arrays_ = s.num_arrays_ + batches.length ∧
        s2.arrayid_list_ = s.arrayid_list_ ∧
        ∀ k0 : Key, lookupBucket m2.entries (hf k0, k0) =
          extendLookup (lookupBucket m.entries (hf k0, k0))
            (keyLocs k0 s.num_arrays_ batches) := by
  induction batches with
  | nil =>
    intro hf s m s2 hm h
    simp only [buildBatches, Option.some.injEq, Prod.mk.injEq] at h
    obtain ⟨-, rfl⟩ := h
    exact ⟨m, hm, by simp, rfl, fun k0 => by rw [keyLocs, extendLookup_nil]⟩
  | cons batch rest ih =>
    intro hf s m s2 hm h
    simp only [buildBatches] at h
    cases hstep : s.AppendKeyColumnWithNulls (hashRows hf batch) <;>
      simp only [hstep] at h
    · exact absurd h (by simp)
    · rename_i p
      obtain ⟨st1, s1⟩ := p
      cases st1 with
      | OK =>
        obtain ⟨m1, hins, hstate⟩ :=
          appendKeyColumnWithNulls_ok s m (hashRows hf batch) s1 hm hstep
        obtain ⟨m2, hht, hnum, hal, hbuck⟩ := ih hf s1 m1 s2 (by rw [hstate]) h
        refine ⟨m2, hht, ?_, ?_, ?_⟩
        · rw [hnum, hstate]
          simp only [List.length_cons]
          omega
        · rw [hal, hstate]
        · intro k0
          rw [hbuck k0,
              mapInsertSkipNulls_lookup (hashRows hf batch) s.num_arrays_ m m1 0
                hins (hf k0, k0),
              extendLookup_append]
          congr 1
          rw [keyLocs]
          congr 1
          · exact matchLocs_hashRows hf k0 s.num_arrays_ batch 0
          · rw [hstate]
      | NotImplemented msg => simp at h
      | CapacityError msg => simp at h
      | Invalid msg => simp at h

/-- A row holding key `k0` contributes its locator to the batch's matching
list. -/
theorem mem_keyRowLocs (k0 : Key) (b : Nat) (batch : List (Option Key)) :
    ∀ (i0 i : Nat), batch.get? i = some (some k0) →
      (⟨b, i0 + i⟩ : ArrayItemIndex) ∈ keyRowLocs k0 b i0 batch := by
  induction batch with
  | nil => intro i0 i h; simp at h
  | cons okey rest ih =>
    intro i0 i h
    cases i with
    | zero =>
      simp only [List.get?, Option.some.injEq] at h
      subst h
      rw [keyRowLocs, if_pos rfl]
      exact List.mem_cons_self _ _
    | succ n =>
      have hmem := ih (i0 + 1) n (by simpa using h)
      have harith : i0 + (n + 1) = i0 + 1 + n := by omega
      rw [keyRowLocs]
      by_cases hc : okey = some k0
      · rw [if_pos hc]
        exact List.mem_cons_of_mem _ (by rw [harith]; exact hmem)
      · rw [if_neg hc, harith]
        exact hmem

/-- A row holding key `k0` anywhere in the batch sequence contributes its
locator to the accumulated matching list. -/
theorem mem_keyLocs (k0 : Key) (batches : List (List (Option Key))) :
    ∀ (b0 b i : Nat),
      (batches.get? b).bind (fun batch => batch.get? i) = some (some k0) →
      (⟨b0 + b, i⟩ : ArrayItemIndex) ∈ keyLocs k0 b0 batches := by
  induction batches with
  | nil => intro b0 b i h; simp at h
  | cons batch rest ih =>
    intro b0 b i h
    cases b with
    | zero =>
      simp only [List.get?, Option.some_bind] at h
      rw [keyLocs]
      refine List.mem_append_left _ ?_
      simpa using mem_keyRowLocs k0 b0 batch 0 i h
    | succ n =>
      have hmem := ih (b0 + 1) n i (by simpa using h)
      rw [keyLocs]
      refine List.mem_append_right _ ?_
      have harith : b0 + (n + 1) = b0 + 1 + n := by omega
      rw [harith]
      exact hmem

/-- Every locator of a batch's matching list carries the batch id and a row
offset at or past the starting offset. -/
theorem keyRowLocs_bound (k0 : Key) (b : Nat) (batch : List (Option Key)) :
    ∀ (i0 : Nat) (l : ArrayItemIndex), l ∈ keyRowLocs k0 b i0 batch →
      l.array_id = b ∧ i0 ≤ l.id := by
  induction batch with
  | nil => intro i0 l h; simp [keyRowLocs] at h
  | cons okey rest ih =>
    intro i0 l h
    rw [keyRowLocs] at h
    by_cases hc : okey = some k0
    · rw [if_pos hc] at h
      rcases List.mem_cons.mp h with rfl | h2
      · exact ⟨rfl, Nat.le_refl _⟩
      · obtain ⟨h1, h2'⟩ := ih (i0 + 1) l h2
        exact ⟨h1, by omega⟩
    · rw [if_neg hc] at h
      obtain ⟨h1, h2'⟩ := ih (i0 + 1) l h
      exact ⟨h1, by omega⟩

/-- Row offsets in a batch's matching list never repeat. -/
theorem keyRowLocs_nodup (k0 : Key) (b : Nat) (batch : List (Option Key)) :
    ∀ i0, (keyRowLocs k0 b i0 batch).Nodup := by
  induction batch with
  | nil => intro i0; simp [keyRowLocs]
  | cons okey rest ih =>
    intro i0
    rw [keyRowLocs]
    by_cases hc : okey = some k0
    · rw [if_pos hc]
      refine List.nodup_cons.mpr ⟨?_, ih (i0 + 1)⟩
      intro hmem
      have hb := (keyRowLocs_bound k0 b rest (i0 + 1) _ hmem).2
      dsimp only at hb
      omega
    · rw [if_neg hc]
      exact ih (i0 + 1)

/-- Every locator accumulated from batch id `b0` onward has batch id at
least `b0`. -/
theorem keyLocs_bound (k0 : Key) (batches : List (List (Option Key))) :
    ∀ (b0 : Nat) (l : ArrayItemIndex), l ∈ keyLocs k0 b0 batches →
      b0 ≤ l.array_id := by
  induction batches with
  | nil => intro b0 l h; simp [keyLocs] at h
  | cons batch rest ih =>
    intro b0 l h
    rw [keyLocs] at h
    rcases List.mem_append.mp h with h1 | h2
    · exact Nat.le_of_eq (keyRowLocs_bound k0 b0 batch 0 l h1).1.symm
    · have := ih (b0 + 1) l h2
      omega

/-- The accumulated matching list never repeats a locator. -/
theorem keyLocs_nodup (k0 : Key) (batches : List (List (Option Key))) :
    ∀ b0, (keyLocs k0 b0 batches).Nodup := by
  induction batches with
  | nil => intro b0; simp [keyLocs]
  | cons batch rest ih =>
    intro b0
    rw [keyLocs]
    refine List.nodup_append.mpr ⟨keyRowLocs_nodup k0 b0 batch 0, ih (b0 + 1), ?_⟩
    intro l hl1 hl2
    have h1 := (keyRowLocs_bound k0 b0 batch 0 l hl1).1
    have h2 := keyLocs_bound k0 rest (b0 + 1) l hl2
    omega

/-- C1: after a successful build of any batch sequence, probing with a
non-null key `k` (its hash computed by the caller's hash function) returns
0 (found), and the cached last-lookup list — also returned by
`GetItemListByIndex` — is exactly the locators of the rows whose key equals
`k`, in insertion order, containing each matching row's locator exactly
once. -/
theorem c1_build_probe_roundtrip (hf : Key → Int) (ctx : Nat) (cols : List Nat)
    (key_size : Int) (batches : List (List (Option Key))) (s2 : HashRelation)
    (hbuild : buildBatches hf (HashRelation.make ctx cols key_size) batches =
      some (Status.OK, s2))
    (b i : Nat) (k : Key)
    (hrow : (batches.get? b).bind (fun batch => batch.get? i) = some (some k)) :
    ∃ s3, s2.Get (hf k) k = some (0, s3) ∧
      s3.arrayid_list_ = keyLocs k 0 batches ∧
      s3.GetItemListByIndex 0 = keyLocs k 0 batches ∧
      (⟨b, i⟩ : ArrayItemIndex) ∈ keyLocs k 0 batches ∧
      (keyLocs k 0 batches).count ⟨b, i⟩ = 1 := by
  obtain ⟨m2, hht, -, -, hbuck⟩ :=
    buildBatches_ok batches hf (HashRelation.make ctx cols key_size) _ s2 rfl hbuild
  have hmem : (⟨b, i⟩ : ArrayItemIndex) ∈ keyLocs k 0 batches := by
    simpa using mem_keyLocs k batches 0 b i hrow
  have hcount := List.count_eq_one_of_mem (keyLocs_nodup k batches 0) hmem
  have hne : keyLocs k 0 batches ≠ [] := by
    intro hnil
    rw [hnil] at hmem
    simp at hmem
  have hlook : lookupBucket m2.entries (hf k, k) = some (keyLocs k 0 batches) := by
    have hb := hbuck k
    rw [show lookupBucket
          (createUnsafeHashMap (1024 * 1024) (256 * 1024 * 1024) key_size).entries
          (hf k, k) = none from rfl] at hb
    rw [hb]
    exact extendLookup_none_of_ne_nil _ hne
  refine ⟨{ s2 with arrayid_list_ := keyLocs k 0 batches }, ?_, rfl, rfl, hmem, hcount⟩
  simp only [HashRelation.Get, hht, hlook]

/-- C2: a successful null-aware batch append routes exactly the null rows'
locators to the null bucket (raising the "has nulls" flag) and inserts
exactly the non-null rows into the underlying map, each under its own
(hash, key) pair. -/
theorem c2_null_routing (s : HashRelation) (m : UnsafeHashMap)
    (rows : List (Int × Option Key)) (s2 : HashRelation)
    (hm : s.hash_table_ = some m)
    (hok : s.AppendKeyColumnWithNulls rows = some (Status.OK, s2)) :
    s2.null_index_set_ = (s.null_index_set_ || rows.any (fun r => r.2.isNone)) ∧
    s2.null_index_list_ =
      (if s.null_index_set_ = false ∧ rows.any (fun r => r.2.isNone) = true
       then nullLocs s.num_arrays_ 0 rows
       else s.null_index_list_ ++ nullLocs s.num_arrays_ 0 rows) ∧
    (∃ m2, s2.hash_table_ = some m2 ∧
      mapInsertSkipNulls s.num_arrays_ m 0 rows = some m2 ∧
      ∀ hk, lookupBucket m2.entries hk =
        extendLookup (lookupBucket m.entries hk)
          (matchLocs hk s.num_arrays_ 0 rows)) := by
  obtain ⟨m2, hins, hstate⟩ := appendKeyColumnWithNulls_ok s m rows s2 hm hok
  refine ⟨by rw [hstate], by rw [hstate], m2, by rw [hstate], hins,
          fun hk => mapInsertSkipNulls_lookup rows s.num_arrays_ m m2 0 hins hk⟩

/-! ## Concrete build scenario (spec section 8) -/

/-- A hash function for the scenario: numeric keys hash to their value. -/
def hfW : Key → Int
  | .num v => v
  | .str _ => 0
  | .row _ => 0

/-- The spec's scenario batches: batch 0 key column [5, 3, null], batch 1
[3, 7]. -/
def demoBatches : List (List (Option Key)) :=
  [[some (Key.num 5), some (Key.num 3), none], [some (Key.num 3), some (Key.num 7)]]

/-- The map after building `demoBatches` on a fresh relation. -/
def demoMap : UnsafeHashMap :=
  { entries := [((5, Key.num 5), [⟨0, 0⟩]),
                ((3, Key.num 3), [⟨0, 1⟩, ⟨1, 0⟩]),
                ((7, Key.num 7), [⟨1, 1⟩])],
    cursor := 56, maxBytes := 256 * 1024 * 1024, arrayCapacity := 1024 * 1024,
    bytesInKeyArray := 8, keyWidthHint := -1, selfAddr := 0, keyArray := 0,
    bytesMap := 0 }

/-- The relation after building `demoBatches`. -/
def demoBuilt : HashRelation :=
  { attached := false, num_arrays_ := 2, hash_relation_column_list_ := [],
    hash_table_ := some demoMap, null_index_set_ := true,
    null_index_list_ := [⟨0, 2⟩], arrayid_list_ := [] }

/-- Witness for C1: the spec's scenario.  `Get(3)` finds locators
[(0,1), (1,0)] in that order (each exactly once), `Get(5)` finds [(0,0)],
`Get(7)` finds [(1,1)], `Get(9)` reports not found, and `GetNull` reports
a null present. -/
theorem c1_build_probe_roundtrip_witness :
    buildBatches hfW (HashRelation.make 0 [] (-1)) demoBatches =
      some (Status.OK, demoBuilt) ∧
    demoBuilt.Get 3 (Key.num 3) =
      some (0, { demoBuilt with arrayid_list_ := [⟨0, 1⟩, ⟨1, 0⟩] }) ∧
    ({ demoBuilt with arrayid_list_ := [⟨0, 1⟩, ⟨1, 0⟩] } :
      HashRelation).GetItemListByIndex 0 = [⟨0, 1⟩, ⟨1, 0⟩] ∧
    keyLocs (Key.num 3) 0 demoBatches = [⟨0, 1⟩, ⟨1, 0⟩] ∧
    (keyLocs (Key.num 3) 0 demoBatches).count ⟨0, 1⟩ = 1 ∧
    (keyLocs (Key.num 3) 0 demoBatches).count ⟨1, 0⟩ = 1 ∧
    demoBuilt.Get 5 (Key.num 5) =
      some (0, { demoBuilt with arrayid_list_ := [⟨0, 0⟩] }) ∧
    demoBuilt.Get 7 (Key.num 7) =
      some (0, { demoBuilt with arrayid_list_ := [⟨1, 1⟩] }) ∧
    demoBuilt.Get 9 (Key.num 9) = some (HASH_NEW_KEY, demoBuilt) ∧
    demoBuilt.GetNull = 0 := by
  obtain ⟨s3, hget, hlist, hitem, hmem, hcount⟩ :=
    c1_build_probe_roundtrip hfW 0 [] (-1) demoBatches demoBuilt rfl 0 1
      (Key.num 3) rfl
  obtain ⟨s4, hget2, hlist2, hitem2, hmem2, hcount2⟩ :=
    c1_build_probe_roundtrip hfW 0 [] (-1) demoBatches demoBuilt rfl 1 0
      (Key.num 3) rfl
  exact ⟨rfl, rfl, rfl, rfl, hcount, hcount2, rfl, rfl, rfl, rfl⟩

/-- The batch of C2's witness: two non-null numeric keys and one null. -/
def rowsNullW : List (Int × Option Key) :=
  [(5, some (Key.num 5)), (3, some (Key.num 3)), (0, none)]

/-- The map after appending `rowsNullW` to a fresh relation. -/
def mapNullW : UnsafeHashMap :=
  { entries := [((5, Key.num 5), [⟨0, 0⟩]), ((3, Key.num 3), [⟨0, 1⟩])],
    cursor := 32, maxBytes := 256 * 1024 * 1024, arrayCapacity := 1024 * 1024,
    bytesInKeyArray := 8, keyWidthHint := -1, selfAddr := 0, keyArray := 0,
    bytesMap := 0 }

/-- The relation after appending `rowsNullW` to a fresh relation. -/
def relNullW : HashRelation :=
  { attached := false, num_arrays_ := 1, hash_relation_column_list_ := [],
    hash_table_ := some mapNullW, null_index_set_ := true,
    null_index_list_ := [⟨0, 2⟩], arrayid_list_ := [] }

/-- Witness for C2: appending [5, 3, null] routes exactly the null row's
locator (0,2) to the null bucket, raises the flag, and inserts exactly the
two non-null rows into the map. -/
theorem c2_null_routing_witness :
    relOwned.AppendKeyColumnWithNulls rowsNullW = some (Status.OK, relNullW) ∧
    relNullW.null_index_set_ = true ∧
    relNullW.null_index_list_ = [⟨0, 2⟩] ∧
    relNullW.hash_table_ = some mapNullW ∧
    mapInsertSkipNulls 0 (createUnsafeHashMap (1024 * 1024) (256 * 1024 * 1024) (-1))
      0 rowsNullW = some mapNullW ∧
    lookupBucket mapNullW.entries (0, Key.num 0) = none := by
  obtain ⟨hset, hlist, m2, hht, hins, hbuck⟩ :=
    c2_null_routing relOwned _ rowsNullW relNullW rfl rfl
  exact ⟨rfl, hset, hlist, rfl, rfl, rfl⟩

end OapHashRelation
